import Mathlib

/-!
Verification of the real-time voice session subsystem of Talk2YourPDF.

The definitions below are a shallow embedding of the relevant source code:

* `GeminiService.*` embeds the service file that defines the base64 helpers
  (`encode`/`decode`), the PCM codec (`createAudioBlob`, `decodeAudioData`)
  and the `LiveSessionManager` class (`start`, `stop`, the language map).
* `App.*` embeds the voice-session handlers of `App.tsx`
  (`handleAudioChunk`'s playback-clock scheduling and
  `handleTurnComplete`'s turn accumulator).

Machine quantities are modelled exactly: bytes are `Nat` values below 256,
16-bit wire samples are `Int` values produced by the JS `Int16Array`
coercion (truncation toward zero, wraparound modulo 2^16), and audio
samples and clock times are rationals.
-/

/- Batteries marks the `Rat` arithmetic operations `@[irreducible]` as an
elaboration-performance measure; the kernel evaluates them fine.  Restore
semireducibility so that concrete rational computations can be settled by
`decide`. -/
attribute [local semireducible] Rat.mul Rat.add Rat.sub Rat.inv Rat.ofScientific

namespace Talk2YourPDF

namespace GeminiService

/-! ### Base64 helpers (`encode` / `decode` in the service file)

The source `encode` builds a binary string from the bytes and calls the
platform `btoa`; `decode` calls `atob` and reads char codes back.  `btoa`
produces standard padded base64; `atob` rejects strings that are not valid
base64 (modelled as `Option.none`).  We model the padded base64 alphabet
exactly; unpadded tails accepted by the forgiving platform decoder are not
produced by the encoder and are immaterial to the properties below. -/

/-- The 64-character base64 alphabet, in index order. -/
def b64Chars : List Char :=
  ['A', 'B', 'C', 'D', 'E', 'F', 'G', 'H', 'I', 'J', 'K', 'L', 'M',
   'N', 'O', 'P', 'Q', 'R', 'S', 'T', 'U', 'V', 'W', 'X', 'Y', 'Z',
   'a', 'b', 'c', 'd', 'e', 'f', 'g', 'h', 'i', 'j', 'k', 'l', 'm',
   'n', 'o', 'p', 'q', 'r', 's', 't', 'u', 'v', 'w', 'x', 'y', 'z',
   '0', '1', '2', '3', '4', '5', '6', '7', '8', '9', '+', '/']

/-- Character for a 6-bit group. -/
def b64Char (n : Nat) : Char := b64Chars.getD n 'A'

/-- Value of an alphabet character, `none` for a character outside the
alphabet (the platform decoder throws there). -/
def b64Val (c : Char) : Option Nat :=
  let i := b64Chars.indexOf c
  if i < 64 then some i else none

/-- Base64 encoding of a byte list (the byte content of the string handed
to `btoa`), processing three bytes into four characters, with `=` padding
exactly as `btoa` emits it. -/
def encB64 : List Nat → List Char
  | [] => []
  | [b0] => [b64Char (b0 / 4), b64Char (b0 % 4 * 16), '=', '=']
  | [b0, b1] =>
      [b64Char (b0 / 4), b64Char (b0 % 4 * 16 + b1 / 16), b64Char (b1 % 16 * 4), '=']
  | b0 :: b1 :: b2 :: rest =>
      b64Char (b0 / 4) :: b64Char (b0 % 4 * 16 + b1 / 16) ::
      b64Char (b1 % 16 * 4 + b2 / 64) :: b64Char (b2 % 64) :: encB64 rest

/-- Base64 decoding of a character list back to bytes, `none` on input the
platform decoder rejects (wrong length, `=` in the middle, characters
outside the alphabet). -/
def decB64 : List Char → Option (List Nat)
  | [] => some []
  | a :: b :: c :: d :: rest =>
    match b64Val a, b64Val b with
    | some va, some vb =>
      if c = '=' then
        if d = '=' ∧ rest = [] then some [va * 4 + vb / 16] else none
      else
        match b64Val c with
        | some vc =>
          if d = '=' then
            if rest = [] then some [va * 4 + vb / 16, vb % 16 * 16 + vc / 4] else none
          else
            match b64Val d with
            | some vd =>
              (decB64 rest).map fun bs =>
                (va * 4 + vb / 16) :: (vb % 16 * 16 + vc / 4) :: (vc % 4 * 64 + vd) :: bs
            | none => none
        | none => none
    | _, _ => none
  | _ => none

/-- Model of `encode` in the service file: bytes to a base64 string. -/
def encode (bytes : List Nat) : String := String.mk (encB64 bytes)

/-- Model of `decode` in the service file: base64 string back to bytes (`none`
models the `atob` exception on invalid input). -/
def decode (s : String) : Option (List Nat) := decB64 s.data

/-! ### PCM codec (`createAudioBlob` / `decodeAudioData`)

`createAudioBlob` runs `int16[i] = data[i] * 32768` on a `Float32Array`;
assigning a number to an `Int16Array` element uses the JS `ToInt16`
coercion: truncate toward zero, reduce modulo 2^16 into `[-32768, 32767]`.
Samples are modelled as exact rationals. -/

/-- Truncation of a rational toward zero (the integer part JS keeps when
coercing a number to an integer type). -/
def ratTrunc (q : ℚ) : ℤ :=
  if 0 ≤ q.num then ((q.num.toNat / q.den : ℕ) : ℤ) else -((q.num.natAbs / q.den : ℕ) : ℤ)

/-- JS `ToInt16`: truncate toward zero, wrap modulo 2^16 into the signed
16-bit range. -/
def toInt16 (q : ℚ) : ℤ :=
  if ratTrunc q % 65536 < 32768 then ratTrunc q % 65536 else ratTrunc q % 65536 - 65536

/-- One iteration of `createAudioBlob`'s loop: `int16[i] = data[i] * 32768`. -/
def encodeSampleInt (f : ℚ) : ℤ := toInt16 (f * 32768)

/-- Serialize 16-bit integers to bytes as the underlying `Int16Array`
buffer stores them: little-endian, two bytes per sample. -/
def int16sToBytes : List ℤ → List Nat
  | [] => []
  | i :: rest => (i % 65536).toNat % 256 :: (i % 65536).toNat / 256 :: int16sToBytes rest

/-- Read one 16-bit signed little-endian sample from two bytes (the
`Int16Array` view taken by `decodeAudioData`). -/
def int16FromBytes (b0 b1 : Nat) : ℤ :=
  if ((b0 : ℤ) + 256 * b1) < 32768 then (b0 : ℤ) + 256 * b1
  else (b0 : ℤ) + 256 * b1 - 65536

/-- The `Int16Array` view of a byte buffer: consecutive little-endian
16-bit reads.  A trailing odd byte yields no sample (the view constructor
in the source instead throws; `decodeAudioData` below models that). -/
def bytesToInt16 : List Nat → List ℤ
  | [] => []
  | [_] => []
  | b0 :: b1 :: rest => int16FromBytes b0 b1 :: bytesToInt16 rest

/-- The `Blob` value `createAudioBlob` returns: base64 data plus a MIME
descriptor. -/
structure GenAIBlob where
  data : String
  mimeType : String
deriving DecidableEq

/-- Model of `createAudioBlob` in the service file: coerce each float sample with
`ToInt16`, serialize the `Int16Array` buffer little-endian, base64-encode
it, and attach the fixed MIME descriptor `audio/pcm;rate=16000` (the
function takes no sample-rate parameter). -/
def createAudioBlob (data : List ℚ) : GenAIBlob :=
  { data := encode (int16sToBytes (data.map encodeSampleInt)),
    mimeType := "audio/pcm;rate=16000" }

/-- Model of `decodeAudioData` in the service file.  It constructs
`new Int16Array(data.buffer)`, which throws a `RangeError` when the byte
length is odd; otherwise it de-interleaves
`channelData[i] = dataInt16[i * numChannels + channel] / 32768.0` into
`frameCount = dataInt16.length / numChannels` frames per channel. -/
def decodeAudioData (data : List Nat) (numChannels : Nat) :
    Except String (List (List ℚ)) :=
  if data.length % 2 ≠ 0 then Except.error "RangeError"
  else
    Except.ok ((List.range numChannels).map fun channel =>
      (List.range ((bytesToInt16 data).length / numChannels)).map fun i =>
        (((bytesToInt16 data).getD (i * numChannels + channel) 0 : ℤ) : ℚ) / 32768)

/-! ### Specification-side comparison definitions

These two definitions follow the claim/spec wording (not the source) and
exist only to be compared against the implementation definitions above. -/

/-- Floor of a rational, computably (used only by the specification-side
round-to-nearest encoder below). -/
def ratFloor (q : ℚ) : ℤ :=
  if 0 ≤ q.num then ((q.num.toNat / q.den : ℕ) : ℤ)
  else -(((q.num.natAbs + q.den - 1) / q.den : ℕ) : ℤ)

/-- Specification-side encoder from the claim's words: `round(f * 32768)`
(JS `Math.round x = floor (x + 1/2)`).  For comparison with
`encodeSampleInt` only. -/
def encodeSampleSpecRound (f : ℚ) : ℤ := ratFloor (f * 32768 + 1 / 2)

/-- Specification-side decoder from the claim's words for a chunk whose
byte length is not a multiple of `2 * numChannels`: round down to the
nearest full frame and decode that prefix.  For comparison with
`decodeAudioData` only. -/
def decodeWireSpecTrunc (data : List Nat) (numChannels : Nat) : List (List ℚ) :=
  (List.range numChannels).map fun channel =>
    (List.range (data.length / (2 * numChannels))).map fun i =>
      (((bytesToInt16 data).getD (i * numChannels + channel) 0 : ℤ) : ℚ) / 32768

/-- The wire round trip the session performs on audio: encode local float
samples with `createAudioBlob`, then run the inbound path (`decode` the
base64 data, view it as little-endian int16, divide by 32768.0) as
`decodeAudioData` does for the mono playback stream. -/
def wireRoundTrip (samples : List ℚ) : Option (List ℚ) :=
  (decode (createAudioBlob samples).data).bind fun bytes =>
    match decodeAudioData bytes 1 with
    | Except.error _ => none
    | Except.ok chans => some (chans.headD [])

/-! ### `LiveSessionManager` (`start` / `stop` / language map)

The manager's fields are modelled by whether each resource is held
(`this.session`, `this.sessionPromise`, `this.mediaStream`,
`this.inputWorkletNode`, `this.mediaStreamSource`,
`this.inputAudioContext`).  Two environment flags record the behaviour of
the opaque platform objects: whether `session.close()` throws when
invoked (the source wraps it in no try/catch) and whether the
asynchronous `inputAudioContext.close()` promise rejects (the source
attaches `.catch`, so it never propagates). -/

/-- State of an `AudioContext` (`running` / `suspended` / `closed`). -/
inductive CtxState
  | running
  | suspended
  | closed
deriving DecidableEq

/-- The fields of a `LiveSessionManager` instance, plus the behaviour of
the opaque handles it owns. -/
structure ManagerState where
  sessionOpen : Bool
  sessionCloseThrows : Bool
  sessionPromiseSet : Bool
  mediaStreamTracks : Option Nat
  workletNode : Bool
  streamSource : Bool
  inputCtx : Option CtxState
  ctxCloseRejects : Bool
deriving DecidableEq

/-- One observable resource-release step of `stop()`. -/
inductive Action
  | closeSession
  | stopTrack (i : Nat)
  | closePort
  | disconnectNode
  | disconnectSource
  | closeCtx
deriving DecidableEq

/-- Result of one `stop()` call: the state afterwards, the release steps
that were performed, and whether the call raised. -/
structure StopResult where
  st : ManagerState
  acts : List Action
  threw : Bool
deriving DecidableEq

/-- Model of `LiveSessionManager.stop()`.  The statements run in source order with
no exception guard: `session?.close()`, null the session fields, stop
every media-stream track, close/disconnect the worklet node, disconnect
the source node, and close the input audio context unless it is already
closed (its async rejection is caught and ignored, hence
`ctxCloseRejects` never affects the outcome).  If `session.close()`
throws, the exception propagates before any field is assigned, so the
remaining steps are skipped and the state is unchanged. -/
def stop (s : ManagerState) : StopResult :=
  if s.sessionOpen && s.sessionCloseThrows then
    { st := s, acts := [], threw := true }
  else
    let acts1 := if s.sessionOpen then [Action.closeSession] else []
    let acts2 := match s.mediaStreamTracks with
      | some n => (List.range n).map Action.stopTrack
      | none => []
    let acts3 := if s.workletNode then [Action.closePort, Action.disconnectNode] else []
    let acts4 := if s.streamSource then [Action.disconnectSource] else []
    let doCtx : Bool := match s.inputCtx with
      | some CtxState.closed => false
      | some _ => true
      | none => false
    { st := { sessionOpen := false, sessionCloseThrows := s.sessionCloseThrows,
              sessionPromiseSet := false, mediaStreamTracks := none,
              workletNode := false, streamSource := false,
              inputCtx := if doCtx then none else s.inputCtx,
              ctxCloseRejects := s.ctxCloseRejects },
      acts := acts1 ++ acts2 ++ acts3 ++ acts4 ++ (if doCtx then [Action.closeCtx] else []),
      threw := false }

/-- Results of `n` consecutive `stop()` calls. -/
def stopTrace (s : ManagerState) : Nat → List StopResult
  | 0 => []
  | n + 1 => stop s :: stopTrace (stop s).st n

/-- No resources held (a closed-but-non-null audio context counts as
released: the source deliberately leaves it in place and never touches it
again). -/
def released (s : ManagerState) : Prop :=
  s.sessionOpen = false ∧ s.sessionPromiseSet = false ∧ s.mediaStreamTracks = none ∧
  s.workletNode = false ∧ s.streamSource = false ∧
  (s.inputCtx = none ∨ s.inputCtx = some CtxState.closed)

/-- A freshly constructed manager: nothing held. -/
def initialManager : ManagerState :=
  { sessionOpen := false, sessionCloseThrows := false, sessionPromiseSet := false,
    mediaStreamTracks := none, workletNode := false, streamSource := false,
    inputCtx := none, ctxCloseRejects := false }

/-- Own entries of the `langMap` object literal in `start`: the five
language codes it declares. -/
def langMapOwn (l : String) : Option String :=
  if l = "en-US" then some "English"
  else if l = "pt-BR" then some "Portuguese (Brazil)"
  else if l = "es-ES" then some "Spanish (Spain)"
  else if l = "fr-FR" then some "French (France)"
  else if l = "de-DE" then some "German (Germany)"
  else none

/-- Property keys the object literal inherits from `Object.prototype`.
A property read on `langMap` falls through to these when no own entry
matches; every one of them holds a truthy value (a built-in function, or
the prototype object itself for `__proto__`). -/
def objectProtoKeys : List String :=
  ["constructor", "hasOwnProperty", "isPrototypeOf", "propertyIsEnumerable",
   "toLocaleString", "toString", "valueOf", "__proto__",
   "__defineGetter__", "__defineSetter__", "__lookupGetter__", "__lookupSetter__"]

/-- The value `langMap[options.language] || 'English'` evaluates to:
either a string (a mapped language name, or the 'English' fallback) or a
truthy member inherited from `Object.prototype`, identified by its key
(its exact stringification when later interpolated is engine-defined and
nothing below depends on it). -/
inductive LangName
  | str (s : String)
  | protoMember (key : String)
deriving DecidableEq

/-- Stringification applied when a looked-up value is interpolated into
the template literal.  For an inherited `Object.prototype` member the
engine renders the built-in function or object (never the word
"English"); the model keeps only the member's key. -/
def LangName.text : LangName → String
  | LangName.str s => s
  | LangName.protoMember key => "[Object.prototype member " ++ key ++ "]"

/-- The property read `langMap[options.language]` on the object literal:
an own entry when the code is one of the five, else the inherited
`Object.prototype` member when the code names one, else undefined. -/
def langLookup (l : String) : Option LangName :=
  match langMapOwn l with
  | some s => some (LangName.str s)
  | none => if l ∈ objectProtoKeys then some (LangName.protoMember l) else none

/-- Model of `langMap[options.language] || 'English'`: every defined
lookup result is truthy (the five mapped names are non-empty strings,
the inherited prototype members are functions or objects), so `||` keeps
it; only an undefined lookup falls back to 'English'. -/
def langNameOf (l : String) : LangName :=
  (langLookup l).getD (LangName.str "English")

/-- The system instruction `start` builds, with the language name
interpolated twice and the document text embedded. -/
def systemInstructionOf (language documentContent : String) : String :=
  "You are a helpful and friendly research assistant. Your answers should be based on the document provided. Be concise. The user is speaking "
  ++ (langNameOf language).text ++ ". Please respond in " ++ (langNameOf language).text ++
  ".\n\nDOCUMENT CONTEXT:\n---\n" ++ documentContent ++ "\n---"

/-- Result of the synchronous prefix of `start()`: the state afterwards
and, when the call proceeds, the system instruction handed to the
connection (`none` when the call returns early because a session promise
already exists). -/
structure StartResult where
  st : ManagerState
  instruction : Option String
deriving DecidableEq

/-- Model of `LiveSessionManager.start()`, synchronous prefix: if
`this.sessionPromise` is non-null, warn and return immediately (state
untouched); otherwise build the system instruction and set the session
promise by calling connect. -/
def start (s : ManagerState) (language documentContent : String) : StartResult :=
  if s.sessionPromiseSet then { st := s, instruction := none }
  else
    { st := { s with sessionPromiseSet := true },
      instruction := some (systemInstructionOf language documentContent) }

/-- The session is starting or active exactly while `this.sessionPromise`
is non-null (set first thing in `start`, cleared only by `stop`). -/
def startingOrActive (s : ManagerState) : Prop := s.sessionPromiseSet = true

instance releasedDecidable (s : ManagerState) : Decidable (released s) := by
  unfold released
  infer_instance

instance startingOrActiveDecidable (s : ManagerState) : Decidable (startingOrActive s) := by
  unfold startingOrActive
  infer_instance

end GeminiService

namespace App

/-! ### Voice-session handlers of `App.tsx` -/

/-- The playback-clock scheduling loop of `handleAudioChunk`: for each
frame (arrival clock time, duration), run
`nextStartTime = max(nextStartTime, now); start(nextStartTime);
nextStartTime += duration` and collect the scheduled start times. -/
def scheduleStarts : ℚ → List (ℚ × ℚ) → List ℚ
  | _, [] => []
  | next, frame :: rest =>
      max next frame.1 :: scheduleStarts (max next frame.1 + frame.2) rest

/-- JS `String.prototype.trim` whitespace (ASCII whitespace plus NBSP;
further exotic Unicode space characters do not occur in this model). -/
def jsWhitespaceChar (c : Char) : Bool :=
  c == ' ' || c == '\t' || c == '\n' || c == '\r' || c == '\x0b' || c == '\x0c' ||
  c == '\u00A0'

/-- JS `String.prototype.trim`: drop leading and trailing whitespace. -/
def jsTrim (s : String) : String :=
  String.mk (((s.data.dropWhile fun c => jsWhitespaceChar c).reverse.dropWhile
    fun c => jsWhitespaceChar c).reverse)

/-- Transcript events the turn accumulator consumes. -/
inductive TEvent
  | inputDelta (text : String)
  | outputDelta (text : String)
  | turnComplete
deriving DecidableEq

/-- One finalized (question, answer) exchange.  `handleTurnComplete`
appends it to the chat history as a user message carrying the question
and an AI message carrying the answer (with the question attached). -/
structure TurnRecord where
  question : String
  answer : String
deriving DecidableEq

/-- The two open transcript accumulators
(`currentInputTranscriptionRef` / `currentOutputTranscriptionRef`). -/
structure TurnAcc where
  pendingInput : String
  pendingOutput : String
deriving DecidableEq

/-- One event step of the turn accumulator:
`handleInputTranscription` / `handleOutputTranscription` append the
delta; `handleTurnComplete` trims both accumulators, emits one record
when the trimmed input is non-empty (and a notebook is active, as it is
throughout a live session), and resets both accumulators in all cases. -/
def turnStep (activeNotebook : Bool) (st : TurnAcc) :
    TEvent → TurnAcc × List TurnRecord
  | TEvent.inputDelta t => ({ st with pendingInput := st.pendingInput ++ t }, [])
  | TEvent.outputDelta t => ({ st with pendingOutput := st.pendingOutput ++ t }, [])
  | TEvent.turnComplete =>
      if jsTrim st.pendingInput ≠ "" ∧ activeNotebook then
        ({ pendingInput := "", pendingOutput := "" },
         [{ question := jsTrim st.pendingInput, answer := jsTrim st.pendingOutput }])
      else
        ({ pendingInput := "", pendingOutput := "" }, [])

/-- Fold `turnStep` over an event sequence, collecting emitted records. -/
def runEvents (activeNotebook : Bool) : TurnAcc → List TEvent → TurnAcc × List TurnRecord
  | st, [] => (st, [])
  | st, e :: rest =>
      let r1 := turnStep activeNotebook st e
      let r2 := runEvents activeNotebook r1.1 rest
      (r2.1, r1.2 ++ r2.2)

/-- Concatenation of the input transcript deltas of an event sequence. -/
def inputText : List TEvent → String
  | [] => ""
  | TEvent.inputDelta t :: rest => t ++ inputText rest
  | _ :: rest => inputText rest

/-- Concatenation of the output transcript deltas of an event sequence. -/
def outputText : List TEvent → String
  | [] => ""
  | TEvent.outputDelta t :: rest => t ++ outputText rest
  | _ :: rest => outputText rest

/-- The playback-side session state `handleAudioChunk` touches:
the clock cursor, the scheduled buffers, and whether the session is
still listening (teardown happens only via `stopVoiceMode`, which this
handler never calls). -/
structure VoiceState where
  nextStartTime : ℚ
  scheduled : List (ℚ × ℚ)
  listening : Bool
deriving DecidableEq

/-- Model of `handleAudioChunk` on one inbound chunk: bump the clock cursor to
`max(nextStartTime, currentTime)` (this happens before the decode), then
decode mono at 24 kHz; a decode failure rejects the handler's promise —
nothing is scheduled and no teardown runs; on success schedule the
buffer at the cursor and advance the cursor by its duration
(`frameCount / 24000`). -/
def audioChunkStep (st : VoiceState) (now : ℚ) (bytes : List Nat) : VoiceState :=
  let next := max st.nextStartTime now
  match GeminiService.decodeAudioData bytes 1 with
  | Except.error _ => { st with nextStartTime := next }
  | Except.ok chans =>
      { nextStartTime := next + ((chans.headD []).length : ℚ) / 24000,
        scheduled := st.scheduled ++ [(next, ((chans.headD []).length : ℚ) / 24000)],
        listening := st.listening }

end App

/-! ### Supporting lemmas -/

namespace GeminiService

theorem b64Val_b64Char_fin : ∀ n : Fin 64, b64Val (b64Char n.val) = some n.val := by
  decide

theorem b64Val_b64Char (n : Nat) (h : n < 64) : b64Val (b64Char n) = some n :=
  b64Val_b64Char_fin ⟨n, h⟩

theorem b64Char_ne_pad_fin : ∀ n : Fin 64, b64Char n.val ≠ '=' := by
  decide

theorem b64Char_ne_pad (n : Nat) (h : n < 64) : b64Char n ≠ '=' :=
  b64Char_ne_pad_fin ⟨n, h⟩

theorem decB64_encB64 (l : List Nat) (h : ∀ b ∈ l, b < 256) :
    decB64 (encB64 l) = some l := by
  induction l using encB64.induct with
  | case1 => rfl
  | case2 b0 =>
    have h0 : b0 < 256 := h b0 (by simp)
    have e0 : b64Val (b64Char (b0 / 4)) = some (b0 / 4) := b64Val_b64Char _ (by omega)
    have e1 : b64Val (b64Char (b0 % 4 * 16)) = some (b0 % 4 * 16) :=
      b64Val_b64Char _ (by omega)
    simp [encB64, decB64, e0, e1]
    omega
  | case3 b0 b1 =>
    have h0 : b0 < 256 := h b0 (by simp)
    have h1 : b1 < 256 := h b1 (by simp)
    have e0 : b64Val (b64Char (b0 / 4)) = some (b0 / 4) := b64Val_b64Char _ (by omega)
    have e1 : b64Val (b64Char (b0 % 4 * 16 + b1 / 16)) = some (b0 % 4 * 16 + b1 / 16) :=
      b64Val_b64Char _ (by omega)
    have e2 : b64Val (b64Char (b1 % 16 * 4)) = some (b1 % 16 * 4) :=
      b64Val_b64Char _ (by omega)
    have n2 : b64Char (b1 % 16 * 4) ≠ '=' := b64Char_ne_pad _ (by omega)
    simp [encB64, decB64, e0, e1, e2, n2]
    omega
  | case4 b0 b1 b2 rest ih =>
    have h0 : b0 < 256 := h b0 (by simp)
    have h1 : b1 < 256 := h b1 (by simp)
    have h2 : b2 < 256 := h b2 (by simp)
    have hrest : ∀ b ∈ rest, b < 256 := fun b hb => h b (by simp [hb])
    have e0 : b64Val (b64Char (b0 / 4)) = some (b0 / 4) := b64Val_b64Char _ (by omega)
    have e1 : b64Val (b64Char (b0 % 4 * 16 + b1 / 16)) = some (b0 % 4 * 16 + b1 / 16) :=
      b64Val_b64Char _ (by omega)
    have e2 : b64Val (b64Char (b1 % 16 * 4 + b2 / 64)) = some (b1 % 16 * 4 + b2 / 64) :=
      b64Val_b64Char _ (by omega)
    have e3 : b64Val (b64Char (b2 % 64)) = some (b2 % 64) := b64Val_b64Char _ (by omega)
    have n2 : b64Char (b1 % 16 * 4 + b2 / 64) ≠ '=' := b64Char_ne_pad _ (by omega)
    have n3 : b64Char (b2 % 64) ≠ '=' := b64Char_ne_pad _ (by omega)
    simp [encB64, decB64, e0, e1, e2, e3, n2, n3, ih hrest]
    refine ⟨by omega, by omega, by omega⟩

theorem ratTrunc_nonneg_bounds (q : ℚ) (h : 0 ≤ q) :
    (ratTrunc q : ℚ) ≤ q ∧ q < (ratTrunc q : ℚ) + 1 ∧ 0 ≤ ratTrunc q := by
  have hn : 0 ≤ q.num := Rat.num_nonneg.mpr h
  have hdpos : 0 < q.den := q.pos
  have hdq : 0 < (q.den : ℚ) := by exact_mod_cast hdpos
  have hnum : (q.num : ℚ) = q * q.den := (div_eq_iff (ne_of_gt hdq)).mp (Rat.num_div_den q)
  rw [ratTrunc, if_pos hn]
  set k := q.num.toNat / q.den with hk
  have h1 : k * q.den ≤ q.num.toNat := Nat.div_mul_le_self _ _
  have h2 : q.num.toNat < (k + 1) * q.den := by
    rw [add_mul, one_mul]
    calc q.num.toNat = k * q.den + q.num.toNat % q.den := (Nat.div_add_mod' _ _).symm
    _ < k * q.den + q.den := Nat.add_lt_add_left (Nat.mod_lt _ hdpos) _
  have htn : ((q.num.toNat : ℕ) : ℚ) = (q.num : ℚ) := by
    have hz : ((q.num.toNat : ℕ) : ℤ) = q.num := Int.toNat_of_nonneg hn
    exact_mod_cast congrArg (fun z : ℤ => (z : ℚ)) hz
  have hq1 : (k : ℚ) * q.den ≤ q * q.den := by
    have hc : ((k * q.den : ℕ) : ℚ) ≤ ((q.num.toNat : ℕ) : ℚ) := by exact_mod_cast h1
    push_cast at hc
    rw [htn, hnum] at hc
    exact hc
  have hq2 : q * q.den < ((k : ℚ) + 1) * q.den := by
    have hc : ((q.num.toNat : ℕ) : ℚ) < (((k + 1) * q.den : ℕ) : ℚ) := by exact_mod_cast h2
    push_cast at hc
    rw [htn, hnum] at hc
    linarith
  refine ⟨?_, ?_, by positivity⟩
  · have := le_of_mul_le_mul_right hq1 hdq
    push_cast
    exact this
  · have := lt_of_mul_lt_mul_right hq2 (le_of_lt hdq)
    push_cast
    exact this

theorem ratTrunc_neg_bounds (q : ℚ) (h : q < 0) :
    q ≤ (ratTrunc q : ℚ) ∧ (ratTrunc q : ℚ) < q + 1 ∧ ratTrunc q ≤ 0 := by
  have hn : ¬ 0 ≤ q.num := fun hc => absurd (Rat.num_nonneg.mp hc) (not_le.mpr h)
  have hnn : q.num < 0 := by omega
  have hdpos : 0 < q.den := q.pos
  have hdq : 0 < (q.den : ℚ) := by exact_mod_cast hdpos
  have hnum : (q.num : ℚ) = q * q.den := (div_eq_iff (ne_of_gt hdq)).mp (Rat.num_div_den q)
  rw [ratTrunc, if_neg hn]
  set K := q.num.natAbs / q.den with hK
  have h1 : K * q.den ≤ q.num.natAbs := Nat.div_mul_le_self _ _
  have h2 : q.num.natAbs < (K + 1) * q.den := by
    rw [add_mul, one_mul]
    calc q.num.natAbs = K * q.den + q.num.natAbs % q.den := (Nat.div_add_mod' _ _).symm
    _ < K * q.den + q.den := Nat.add_lt_add_left (Nat.mod_lt _ hdpos) _
  have habs : ((q.num.natAbs : ℕ) : ℚ) = -(q.num : ℚ) := by
    have hz : ((q.num.natAbs : ℕ) : ℤ) = -q.num := by omega
    calc ((q.num.natAbs : ℕ) : ℚ) = (((q.num.natAbs : ℕ) : ℤ) : ℚ) := (Int.cast_natCast _).symm
    _ = ((-q.num : ℤ) : ℚ) := by rw [hz]
    _ = -(q.num : ℚ) := by push_cast
                           ring
  have hq1 : (K : ℚ) * q.den ≤ -(q * q.den) := by
    have hc : ((K * q.den : ℕ) : ℚ) ≤ ((q.num.natAbs : ℕ) : ℚ) := by exact_mod_cast h1
    push_cast at hc
    rw [habs, hnum] at hc
    linarith
  have hq2 : -(q * q.den) < ((K : ℚ) + 1) * q.den := by
    have hc : ((q.num.natAbs : ℕ) : ℚ) < (((K + 1) * q.den : ℕ) : ℚ) := by exact_mod_cast h2
    push_cast at hc
    rw [habs, hnum] at hc
    linarith
  have hk1 : q ≤ -(K : ℚ) := by
    have hml : q * q.den ≤ (-(K : ℚ)) * q.den := by nlinarith
    exact le_of_mul_le_mul_right hml hdq
  have hk2 : -(K : ℚ) < q + 1 := by
    have hml : (-(K : ℚ) - 1) * q.den < q * q.den := by nlinarith
    have := lt_of_mul_lt_mul_right hml (le_of_lt hdq)
    linarith
  refine ⟨?_, ?_, neg_nonpos.mpr (Int.natCast_nonneg _)⟩
  · push_cast
    exact hk1
  · push_cast
    exact hk2

theorem toInt16_range (q : ℚ) : -32768 ≤ toInt16 q ∧ toInt16 q ≤ 32767 := by
  unfold toInt16
  have h1 : 0 ≤ ratTrunc q % 65536 := Int.emod_nonneg _ (by norm_num)
  have h2 : ratTrunc q % 65536 < 65536 := Int.emod_lt_of_pos _ (by norm_num)
  split <;> omega

theorem toInt16_eq_self (q : ℚ) (h1 : -32768 ≤ ratTrunc q) (h2 : ratTrunc q ≤ 32767) :
    toInt16 q = ratTrunc q := by
  unfold toInt16
  split <;> omega

theorem encodeSampleInt_eq_trunc (f : ℚ) (hlo : -1 ≤ f) (hhi : f < 1) :
    encodeSampleInt f = ratTrunc (f * 32768) := by
  unfold encodeSampleInt
  set y := f * 32768 with hy
  have hylo : -32768 ≤ y := by rw [hy]; linarith
  have hyhi : y < 32768 := by rw [hy]; linarith
  rcases le_or_lt 0 y with hc | hc
  · obtain ⟨hb1, _, hb3⟩ := ratTrunc_nonneg_bounds y hc
    apply toInt16_eq_self
    · omega
    · have hq : (ratTrunc y : ℚ) < 32768 := lt_of_le_of_lt hb1 hyhi
      have : ratTrunc y < 32768 := by exact_mod_cast hq
      omega
  · obtain ⟨hb1, _, hb3⟩ := ratTrunc_neg_bounds y hc
    apply toInt16_eq_self
    · have hq : (-32768 : ℚ) ≤ (ratTrunc y : ℚ) := le_trans hylo hb1
      exact_mod_cast hq
    · omega

theorem encodeSampleInt_mem_range (f : ℚ) :
    -32768 ≤ encodeSampleInt f ∧ encodeSampleInt f ≤ 32767 := toInt16_range _

theorem encodeSample_tolerance (f : ℚ) (hlo : -1 ≤ f) (hhi : f < 1) :
    |((encodeSampleInt f : ℤ) : ℚ) / 32768 - f| ≤ 1 / 32768 := by
  rw [encodeSampleInt_eq_trunc f hlo hhi]
  set y := f * 32768 with hy
  have herr : |(ratTrunc y : ℚ) - y| ≤ 1 := by
    rcases le_or_lt 0 y with hc | hc
    · obtain ⟨hb1, hb2, _⟩ := ratTrunc_nonneg_bounds y hc
      rw [abs_le]
      constructor <;> linarith
    · obtain ⟨hb1, hb2, _⟩ := ratTrunc_neg_bounds y hc
      rw [abs_le]
      constructor <;> linarith
  have hrw : (ratTrunc y : ℚ) / 32768 - f = ((ratTrunc y : ℚ) - y) / 32768 := by
    rw [hy]
    ring
  rw [hrw, abs_div, abs_of_pos (by norm_num : (0:ℚ) < 32768)]
  gcongr

theorem int16sToBytes_lt (l : List ℤ) : ∀ b ∈ int16sToBytes l, b < 256 := by
  induction l with
  | nil => simp [int16sToBytes]
  | cons i rest ih =>
    intro b hb
    simp only [int16sToBytes, List.mem_cons] at hb
    have h1 : 0 ≤ i % 65536 := Int.emod_nonneg _ (by norm_num)
    have h2 : i % 65536 < 65536 := Int.emod_lt_of_pos _ (by norm_num)
    rcases hb with h | h | h
    · omega
    · omega
    · exact ih b h

theorem int16sToBytes_length (l : List ℤ) :
    (int16sToBytes l).length = 2 * l.length := by
  induction l with
  | nil => rfl
  | cons i rest ih =>
    simp only [int16sToBytes, List.length_cons, ih]
    omega

theorem bytesToInt16_int16sToBytes (l : List ℤ)
    (h : ∀ i ∈ l, -32768 ≤ i ∧ i ≤ 32767) :
    bytesToInt16 (int16sToBytes l) = l := by
  induction l with
  | nil => rfl
  | cons i rest ih =>
    obtain ⟨hlo, hhi⟩ := h i (by simp)
    have hrest : ∀ j ∈ rest, -32768 ≤ j ∧ j ≤ 32767 := fun j hj => h j (by simp [hj])
    show int16FromBytes _ _ :: bytesToInt16 (int16sToBytes rest) = i :: rest
    rw [ih hrest]
    have h1 : 0 ≤ i % 65536 := Int.emod_nonneg _ (by norm_num)
    have h2 : i % 65536 < 65536 := Int.emod_lt_of_pos _ (by norm_num)
    unfold int16FromBytes
    split <;> [skip; skip] <;> congr 1 <;> omega

theorem bytesToInt16_length (l : List Nat) :
    (bytesToInt16 l).length = l.length / 2 := by
  induction l using bytesToInt16.induct with
  | case1 => rfl
  | case2 b => simp [bytesToInt16]
  | case3 b0 b1 rest ih =>
    simp only [bytesToInt16, List.length_cons, ih]
    omega

theorem range_map_getD (l : List ℤ) (g : ℤ → ℚ) :
    (List.range l.length).map (fun i => g (l.getD i 0)) = l.map g := by
  induction l with
  | nil => rfl
  | cons x xs ih =>
    rw [List.length_cons, List.range_succ_eq_map, List.map_cons, List.map_map]
    have hfun : ((fun i => g ((x :: xs).getD i 0)) ∘ Nat.succ) =
        fun i => g (xs.getD i 0) := by
      funext i
      simp [List.getD_cons_succ]
    rw [hfun, ih]
    rfl

theorem decodeAudioData_ok_mono (bytes : List Nat) (h : bytes.length % 2 = 0) :
    decodeAudioData bytes 1 =
      Except.ok [(List.range (bytesToInt16 bytes).length).map
        fun i => (((bytesToInt16 bytes).getD i 0 : ℤ) : ℚ) / 32768] := by
  unfold decodeAudioData
  rw [if_neg (by omega)]
  congr 1
  rw [show List.range 1 = [0] from rfl, List.map_cons, List.map_nil]
  congr 1
  rw [Nat.div_one]
  refine List.map_congr_left fun i _ => ?_
  rw [mul_one, add_zero]

theorem wireRoundTrip_eq (a : List ℚ) :
    wireRoundTrip a =
      some ((a.map encodeSampleInt).map fun z => ((z : ℤ) : ℚ) / 32768) := by
  have hdec : decode (createAudioBlob a).data =
      some (int16sToBytes (a.map encodeSampleInt)) :=
    decB64_encB64 _ (int16sToBytes_lt _)
  have hrange : ∀ z ∈ a.map encodeSampleInt, -32768 ≤ z ∧ z ≤ 32767 := by
    intro z hz
    obtain ⟨f, _, rfl⟩ := List.mem_map.mp hz
    exact encodeSampleInt_mem_range f
  have hlen : (int16sToBytes (a.map encodeSampleInt)).length % 2 = 0 := by
    rw [int16sToBytes_length]
    omega
  unfold wireRoundTrip
  rw [hdec, Option.some_bind, decodeAudioData_ok_mono _ hlen,
    bytesToInt16_int16sToBytes _ hrange]
  simp only [List.headD_cons]
  rw [Option.some.injEq]
  exact range_map_getD (a.map encodeSampleInt) (fun z => ((z : ℤ) : ℚ) / 32768)

theorem stop_ok (s : ManagerState)
    (h : s.sessionOpen = false ∨ s.sessionCloseThrows = false) :
    (stop s).threw = false ∧ released (stop s).st := by
  obtain ⟨o, thr, p, m, w, src, ctx, cr⟩ := s
  have hcond : (o && thr) = false := by
    rcases h with h | h <;> simp_all
  unfold stop released
  simp only [hcond]
  rcases ctx with _ | c
  · simp
  · rcases c <;> simp

theorem stop_of_released (s : ManagerState) (h : released s) :
    stop s = { st := s, acts := [], threw := false } := by
  obtain ⟨o, thr, p, m, w, src, ctx, cr⟩ := s
  obtain ⟨h1, h2, h3, h4, h5, h6⟩ := h
  subst h1 h2 h3 h4 h5
  rcases h6 with h6 | h6 <;> subst h6 <;> rfl

theorem stopTrace_fixed (s : ManagerState)
    (h : stop s = { st := s, acts := [], threw := false }) :
    ∀ n, stopTrace s n =
      List.replicate n { st := s, acts := [], threw := false } := by
  intro n
  induction n with
  | zero => rfl
  | succ k ih =>
    simp [stopTrace, h, List.replicate_succ]
    exact ih

end GeminiService

namespace App

theorem scheduleStarts_length (next : ℚ) (frames : List (ℚ × ℚ)) :
    (scheduleStarts next frames).length = frames.length := by
  induction frames generalizing next with
  | nil => rfl
  | cons f rest ih => simp [scheduleStarts, ih]

theorem scheduleStarts_gap (frames : List (ℚ × ℚ)) :
    ∀ (next : ℚ) (i : Nat), i + 1 < frames.length →
      (scheduleStarts next frames).getD i 0 + (frames.getD i (0, 0)).2 ≤
        (scheduleStarts next frames).getD (i + 1) 0 := by
  induction frames with
  | nil =>
    intro next i h
    simp at h
  | cons f rest ih =>
    intro next i h
    cases i with
    | zero =>
      cases rest with
      | nil => simp at h
      | cons g rest' =>
        simp only [scheduleStarts, List.getD_cons_zero, List.getD_cons_succ]
        exact le_max_left _ _
    | succ j =>
      simp only [scheduleStarts, List.getD_cons_succ]
      refine ih _ j ?_
      simp only [List.length_cons] at h
      omega

theorem runEvents_append (a : Bool) (st : TurnAcc) (l1 l2 : List TEvent) :
    runEvents a st (l1 ++ l2) =
      ((runEvents a (runEvents a st l1).1 l2).1,
       (runEvents a st l1).2 ++ (runEvents a (runEvents a st l1).1 l2).2) := by
  induction l1 generalizing st with
  | nil => simp [runEvents]
  | cons e rest ih =>
    simp [runEvents, ih, List.append_assoc]

theorem runEvents_deltas (a : Bool) (deltas : List TEvent) :
    ∀ st : TurnAcc, TEvent.turnComplete ∉ deltas →
      runEvents a st deltas =
        ({ pendingInput := st.pendingInput ++ inputText deltas,
           pendingOutput := st.pendingOutput ++ outputText deltas }, []) := by
  induction deltas with
  | nil =>
    intro st h
    simp [runEvents, inputText, outputText]
  | cons e rest ih =>
    intro st h
    have hrest : TEvent.turnComplete ∉ rest := fun hm => h (List.mem_cons_of_mem _ hm)
    cases e with
    | inputDelta t =>
      simp [runEvents, turnStep, inputText, outputText, ih _ hrest,
        String.append_assoc]
    | outputDelta t =>
      simp [runEvents, turnStep, inputText, outputText, ih _ hrest,
        String.append_assoc]
    | turnComplete => exact absurd (List.mem_cons_self _ _) h

end App

/-! ### The claims -/

open GeminiService App

/-- Claim C9: for every byte array, the base64 helpers satisfy
`decode (encode b) = b`: encoding to a base64 string and decoding back
yields a byte array of the same length with identical bytes. -/
theorem claim_C9_decode_encode_id (bytes : List Nat) (h : ∀ b ∈ bytes, b < 256) :
    decode (encode bytes) = some bytes :=
  decB64_encB64 bytes h

/-- Witness for C9 at a concrete byte array. -/
theorem claim_C9_witness :
    (∀ b ∈ [0, 1, 77, 128, 255], b < 256) ∧
    decode (encode [0, 1, 77, 128, 255]) = some [0, 1, 77, 128, 255] :=
  ⟨by decide, claim_C9_decode_encode_id [0, 1, 77, 128, 255] (by decide)⟩

/-- Claim C3 counterexample: the claim ranges over samples in [-1, 1],
but at the in-range sample 1.0 the encoder computes
`ToInt16 (1.0 * 32768) = -32768` (16-bit wraparound), so the wire round
trip returns -1.0 — an error of 2, far above one quantization step. -/
theorem claim_C3_counterexample :
    wireRoundTrip [(1 : ℚ)] = some [(-1 : ℚ)] ∧
    ¬ |(-1 : ℚ) - 1| ≤ 1 / 32768 := by
  constructor
  · decide
  · have h2 : |(-1 : ℚ) - 1| = 2 := by
      rw [show ((-1 : ℚ) - 1) = -2 by norm_num, abs_neg]
      exact abs_of_nonneg (by norm_num)
    rw [h2]
    norm_num

/-- Claim C3 (amended): for every sample array with values in [-1, 1)
(the right endpoint excluded — at exactly 1.0 the encoder wraps around,
see the counterexample), the wire round trip — encode with
`createAudioBlob`, base64-decode, reinterpret as 16-bit little-endian
integers, divide by 32768.0 — yields an array of the same length that
differs from the input by at most one quantization step, 1/32768, per
sample. -/
theorem claim_C3_amended (a : List ℚ) (h : ∀ f ∈ a, -1 ≤ f ∧ f < 1) :
    ∃ b, wireRoundTrip a = some b ∧ b.length = a.length ∧
      ∀ i, i < a.length → |b.getD i 0 - a.getD i 0| ≤ 1 / 32768 := by
  refine ⟨_, wireRoundTrip_eq a, by simp, ?_⟩
  intro i hi
  have hlen2 : i < ((a.map encodeSampleInt).map fun z => ((z : ℤ) : ℚ) / 32768).length := by
    simpa using hi
  rw [List.getD_eq_getElem _ _ hlen2, List.getD_eq_getElem _ _ hi]
  simp only [List.getElem_map]
  obtain ⟨hlo, hhi⟩ := h _ (List.getElem_mem hi)
  exact encodeSample_tolerance _ hlo hhi

/-- Witness for the amended C3 at a concrete sample array. -/
theorem claim_C3_witness :
    (∀ f ∈ [(1/2 : ℚ), -(1/2), 0, 1/10], -1 ≤ f ∧ f < 1) ∧
    ∃ b, wireRoundTrip [(1/2 : ℚ), -(1/2), 0, 1/10] = some b ∧
      b.length = [(1/2 : ℚ), -(1/2), 0, 1/10].length ∧
      ∀ i, i < [(1/2 : ℚ), -(1/2), 0, 1/10].length →
        |b.getD i 0 - [(1/2 : ℚ), -(1/2), 0, 1/10].getD i 0| ≤ 1 / 32768 :=
  ⟨by decide, claim_C3_amended _ (by decide)⟩

/-- Claim C4 counterexample: at sample 0.1 the implementation stores
`ToInt16 (0.1 * 32768) = trunc 3276.8 = 3276`, while the claim's formula
`round (0.1 * 32768)` gives 3277. -/
theorem claim_C4_counterexample :
    encodeSampleInt (1/10) = 3276 ∧ encodeSampleSpecRound (1/10) = 3277 ∧
    encodeSampleInt (1/10) ≠ encodeSampleSpecRound (1/10) := by
  decide

/-- Claim C4 (amended): the wire encoder converts a float sample `f` by
truncation toward zero with 16-bit wraparound (`ToInt16 (f * 32768)`,
which for `f` in [-1, 1) equals `trunc (f * 32768)`) — not by rounding to
nearest; encoding the 3-sample frame [0.5, -0.5, 0.0] produces a wire
chunk whose decoded int16 values are [16384, -16384, 0]; and the attached
MIME descriptor is the fixed string `audio/pcm;rate=16000` (the encoder
takes no sample-rate parameter). -/
theorem claim_C4_amended :
    (∀ f : ℚ, -1 ≤ f → f < 1 → encodeSampleInt f = ratTrunc (f * 32768)) ∧
    (∃ bytes, decode (createAudioBlob [(1/2 : ℚ), -(1/2), 0]).data = some bytes ∧
      bytesToInt16 bytes = [16384, -16384, 0]) ∧
    (createAudioBlob [(1/2 : ℚ), -(1/2), 0]).mimeType = "audio/pcm;rate=16000" :=
  ⟨fun f hlo hhi => encodeSampleInt_eq_trunc f hlo hhi,
   ⟨[0, 64, 0, 192, 0, 0], by decide, by decide⟩, rfl⟩

/-- Witness for the amended C4 at the concrete sample 0.5. -/
theorem claim_C4_witness :
    (-1 ≤ (1/2 : ℚ) ∧ (1/2 : ℚ) < 1) ∧
    encodeSampleInt (1/2) = ratTrunc ((1/2 : ℚ) * 32768) :=
  ⟨by decide, claim_C4_amended.1 (1/2) (by decide) (by decide)⟩

/-- Claim C5 counterexample: a 3-byte mono chunk is not handled by
rounding down to its one complete frame: `decodeAudioData` raises a
`RangeError` (an `Int16Array` cannot view an odd-length buffer), unlike
the truncating decoder the claim describes. -/
theorem claim_C5_counterexample :
    decodeAudioData [0, 0, 0] 1 = Except.error "RangeError" ∧
    decodeWireSpecTrunc [0, 0, 0] 1 = [[0]] ∧
    decodeAudioData [0, 0, 0] 1 ≠ Except.ok (decodeWireSpecTrunc [0, 0, 0] 1) := by
  refine ⟨rfl, by decide, ?_⟩
  intro hcontra
  rw [show decodeAudioData [0, 0, 0] 1 = Except.error "RangeError" from rfl] at hcontra
  exact Except.noConfusion hcontra

/-- Claim C5 (amended): an inbound wire chunk with an odd byte length
makes the decoder throw a `RangeError` instead of truncating to full
frames; the chunk then yields no scheduled audio and the error is not
escalated — the handler leaves the session listening, with only the
clock cursor updated (that assignment precedes the decode).  A chunk
whose byte length is a multiple of `2 * numChannels` decodes into
`numChannels` channels of `byteLength / 2 / numChannels` samples, each
equal to the 16-bit signed little-endian integer divided by 32768.0. -/
theorem claim_C5_amended (bytes : List Nat) (numChannels : Nat)
    (hch : 0 < numChannels) :
    (bytes.length % 2 = 1 →
      decodeAudioData bytes numChannels = Except.error "RangeError" ∧
      ∀ (st : App.VoiceState) (now : ℚ),
        (App.audioChunkStep st now bytes).listening = st.listening ∧
        (App.audioChunkStep st now bytes).scheduled = st.scheduled) ∧
    ((2 * numChannels) ∣ bytes.length →
      decodeAudioData bytes numChannels =
        Except.ok ((List.range numChannels).map fun channel =>
          (List.range (bytes.length / (2 * numChannels))).map fun i =>
            (((bytesToInt16 bytes).getD (i * numChannels + channel) 0 : ℤ) : ℚ) / 32768) ∧
      ∀ chans, decodeAudioData bytes numChannels = Except.ok chans →
        chans.length = numChannels ∧
        ∀ c ∈ chans, c.length = bytes.length / (2 * numChannels)) := by
  constructor
  · intro hodd
    have herr : decodeAudioData bytes numChannels = Except.error "RangeError" := by
      unfold decodeAudioData
      rw [if_pos (by omega)]
    have herr1 : decodeAudioData bytes 1 = Except.error "RangeError" := by
      unfold decodeAudioData
      rw [if_pos (by omega)]
    refine ⟨herr, ?_⟩
    intro st now
    unfold App.audioChunkStep
    rw [herr1]
    exact ⟨rfl, rfl⟩
  · intro hdvd
    have heven : bytes.length % 2 = 0 := by
      have h2 : (2 : ℕ) ∣ bytes.length :=
        dvd_trans ⟨numChannels, rfl⟩ hdvd
      omega
    have hlen : (bytesToInt16 bytes).length / numChannels =
        bytes.length / (2 * numChannels) := by
      rw [bytesToInt16_length, Nat.div_div_eq_div_mul]
    have hok : decodeAudioData bytes numChannels =
        Except.ok ((List.range numChannels).map fun channel =>
          (List.range (bytes.length / (2 * numChannels))).map fun i =>
            (((bytesToInt16 bytes).getD (i * numChannels + channel) 0 : ℤ) : ℚ) / 32768) := by
      unfold decodeAudioData
      rw [if_neg (by omega), hlen]
    refine ⟨hok, ?_⟩
    intro chans hchans
    rw [hok] at hchans
    injection hchans with hchans
    subst hchans
    constructor
    · simp
    · intro c hc
      simp only [List.mem_map] at hc
      obtain ⟨ch, _, rfl⟩ := hc
      simp

/-- Witness for the amended C5 at a concrete 4-byte mono chunk. -/
theorem claim_C5_witness :
    0 < 1 ∧
    (([0, 64, 0, 192] : List Nat).length % 2 = 1 →
      decodeAudioData [0, 64, 0, 192] 1 = Except.error "RangeError" ∧
      ∀ (st : App.VoiceState) (now : ℚ),
        (App.audioChunkStep st now [0, 64, 0, 192]).listening = st.listening ∧
        (App.audioChunkStep st now [0, 64, 0, 192]).scheduled = st.scheduled) ∧
    ((2 * 1) ∣ ([0, 64, 0, 192] : List Nat).length →
      decodeAudioData [0, 64, 0, 192] 1 =
        Except.ok ((List.range 1).map fun channel =>
          (List.range (([0, 64, 0, 192] : List Nat).length / (2 * 1))).map fun i =>
            (((bytesToInt16 [0, 64, 0, 192]).getD (i * 1 + channel) 0 : ℤ) : ℚ) / 32768) ∧
      ∀ chans, decodeAudioData [0, 64, 0, 192] 1 = Except.ok chans →
        chans.length = 1 ∧
        ∀ c ∈ chans, c.length = ([0, 64, 0, 192] : List Nat).length / (2 * 1)) :=
  ⟨by decide, claim_C5_amended [0, 64, 0, 192] 1 (by decide)⟩

/-- Claim C1: for every sequence of transcript deltas followed by a
`turnComplete`, if the trimmed concatenated input is non-empty exactly one
turn record is emitted, with question = trimmed concatenated input and
answer = trimmed concatenated output; if the trimmed input is empty no
record is emitted; and in both cases both accumulators are empty
immediately afterwards.  (A notebook is active throughout a live voice
session, so the handler's `activeNotebookId` guard is `true` here.) -/
theorem claim_C1_turn_emission (deltas : List TEvent)
    (h : TEvent.turnComplete ∉ deltas) :
    (runEvents true { pendingInput := "", pendingOutput := "" }
        (deltas ++ [TEvent.turnComplete])).1 =
      { pendingInput := "", pendingOutput := "" } ∧
    (runEvents true { pendingInput := "", pendingOutput := "" }
        (deltas ++ [TEvent.turnComplete])).2 =
      (if jsTrim (inputText deltas) ≠ "" then
        [{ question := jsTrim (inputText deltas), answer := jsTrim (outputText deltas) }]
      else []) := by
  rw [runEvents_append, runEvents_deltas true deltas _ h]
  by_cases hc : jsTrim (inputText deltas) ≠ ""
  · simp [runEvents, turnStep, hc]
  · simp [runEvents, turnStep, hc]

/-- Witness for C1 at the spec's scenario deltas. -/
theorem claim_C1_witness :
    (TEvent.turnComplete ∉
      [TEvent.inputDelta "What is", TEvent.inputDelta " entropy?",
       TEvent.outputDelta "Entropy is..."]) ∧
    ((runEvents true { pendingInput := "", pendingOutput := "" }
        ([TEvent.inputDelta "What is", TEvent.inputDelta " entropy?",
          TEvent.outputDelta "Entropy is..."] ++ [TEvent.turnComplete])).1 =
      { pendingInput := "", pendingOutput := "" } ∧
    (runEvents true { pendingInput := "", pendingOutput := "" }
        ([TEvent.inputDelta "What is", TEvent.inputDelta " entropy?",
          TEvent.outputDelta "Entropy is..."] ++ [TEvent.turnComplete])).2 =
      (if jsTrim (inputText
            [TEvent.inputDelta "What is", TEvent.inputDelta " entropy?",
             TEvent.outputDelta "Entropy is..."]) ≠ "" then
        [{ question := jsTrim (inputText
              [TEvent.inputDelta "What is", TEvent.inputDelta " entropy?",
               TEvent.outputDelta "Entropy is..."]),
           answer := jsTrim (outputText
              [TEvent.inputDelta "What is", TEvent.inputDelta " entropy?",
               TEvent.outputDelta "Entropy is..."]) }]
      else [])) :=
  ⟨by decide, claim_C1_turn_emission _ (by decide)⟩

/-- Claim C2: with the playback cursor initialized to 0 and each decoded
frame scheduled at `startTime = max(nextPlaybackStartTime, now)` followed
by `nextPlaybackStartTime = startTime + duration`, the start times are
non-decreasing, and each start time is at least the previous start time
plus the previous frame's duration. -/
theorem claim_C2_playback_clock (frames : List (ℚ × ℚ))
    (hdur : ∀ p ∈ frames, 0 ≤ p.2) :
    (∀ i, i + 1 < (scheduleStarts 0 frames).length →
      (scheduleStarts 0 frames).getD i 0 + (frames.getD i (0, 0)).2 ≤
        (scheduleStarts 0 frames).getD (i + 1) 0) ∧
    (∀ i, i + 1 < (scheduleStarts 0 frames).length →
      (scheduleStarts 0 frames).getD i 0 ≤ (scheduleStarts 0 frames).getD (i + 1) 0) := by
  have hlen := scheduleStarts_length 0 frames
  constructor
  · intro i hi
    exact scheduleStarts_gap frames 0 i (by omega)
  · intro i hi
    have hg := scheduleStarts_gap frames 0 i (by omega)
    have hilen : i < frames.length := by omega
    have hmem : frames.getD i (0, 0) ∈ frames := by
      rw [List.getD_eq_getElem frames (0, 0) hilen]
      exact List.getElem_mem hilen
    have hd := hdur _ hmem
    linarith

/-- Witness for C2 at the spec's scenario: two 1-second frames arriving at
clock times 0 and 0.5 are scheduled at 0.0 and 1.0. -/
theorem claim_C2_witness :
    (∀ p ∈ [((0 : ℚ), (1 : ℚ)), (1/2, 1)], 0 ≤ p.2) ∧
    scheduleStarts 0 [((0 : ℚ), (1 : ℚ)), (1/2, 1)] = [0, 1] ∧
    ((∀ i, i + 1 < (scheduleStarts 0 [((0 : ℚ), (1 : ℚ)), (1/2, 1)]).length →
      (scheduleStarts 0 [((0 : ℚ), (1 : ℚ)), (1/2, 1)]).getD i 0 +
          ([((0 : ℚ), (1 : ℚ)), (1/2, 1)].getD i (0, 0)).2 ≤
        (scheduleStarts 0 [((0 : ℚ), (1 : ℚ)), (1/2, 1)]).getD (i + 1) 0) ∧
    (∀ i, i + 1 < (scheduleStarts 0 [((0 : ℚ), (1 : ℚ)), (1/2, 1)]).length →
      (scheduleStarts 0 [((0 : ℚ), (1 : ℚ)), (1/2, 1)]).getD i 0 ≤
        (scheduleStarts 0 [((0 : ℚ), (1 : ℚ)), (1/2, 1)]).getD (i + 1) 0)) :=
  ⟨by decide, by decide, claim_C2_playback_clock _ (by decide)⟩

/-- Claim C6: N consecutive `stop()` calls after any `start()` perform
exactly one resource-release sequence (the 2nd..Nth calls release nothing
and do not throw), end with no resources held, and `stop()` on a
never-started manager is a no-op that does not throw.  Hypothesis: the
session handle's `close()` does not itself throw (the unguarded throwing
case is claim C8's subject). -/
theorem claim_C6_stop_idempotent (s : ManagerState) (n : Nat)
    (hclose : s.sessionCloseThrows = false) (hn : 1 ≤ n) :
    (stopTrace s n).length = n ∧
    (∀ r ∈ (stopTrace s n).drop 1, r.acts = [] ∧ r.threw = false) ∧
    (∀ r ∈ stopTrace s n, released r.st) ∧
    (stop s).threw = false ∧
    stop initialManager = { st := initialManager, acts := [], threw := false } := by
  have hok := stop_ok s (Or.inr hclose)
  have hfix := stop_of_released _ hok.2
  obtain ⟨k, rfl⟩ : ∃ k, n = k + 1 := ⟨n - 1, by omega⟩
  have htr : stopTrace s (k + 1) =
      stop s :: List.replicate k { st := (stop s).st, acts := [], threw := false } := by
    show stop s :: stopTrace (stop s).st k = _
    rw [stopTrace_fixed _ hfix k]
  refine ⟨?_, ?_, ?_, hok.1, by decide⟩
  · rw [htr]
    simp
  · intro r hr
    rw [htr] at hr
    simp only [List.drop_succ_cons, List.drop_zero] at hr
    have := List.eq_of_mem_replicate hr
    subst this
    exact ⟨rfl, rfl⟩
  · intro r hr
    rw [htr] at hr
    rcases List.mem_cons.mp hr with hr | hr
    · subst hr
      exact hok.2
    · have := List.eq_of_mem_replicate hr
      subst this
      exact hok.2

/-- Witness for C6: three consecutive stops on a fully-resourced manager. -/
theorem claim_C6_witness :
    ((⟨true, false, true, some 2, true, true, some CtxState.running, true⟩ :
        ManagerState).sessionCloseThrows = false) ∧ 1 ≤ 3 ∧
    ((stopTrace ⟨true, false, true, some 2, true, true, some CtxState.running, true⟩ 3).length = 3 ∧
    (∀ r ∈ (stopTrace ⟨true, false, true, some 2, true, true, some CtxState.running, true⟩ 3).drop 1,
      r.acts = [] ∧ r.threw = false) ∧
    (∀ r ∈ stopTrace ⟨true, false, true, some 2, true, true, some CtxState.running, true⟩ 3,
      released r.st) ∧
    (stop ⟨true, false, true, some 2, true, true, some CtxState.running, true⟩).threw = false ∧
    stop initialManager = { st := initialManager, acts := [], threw := false }) :=
  ⟨by decide, by decide,
   claim_C6_stop_idempotent ⟨true, false, true, some 2, true, true, some CtxState.running, true⟩
     3 (by decide) (by decide)⟩

/-- Claim C7: a `start()` while a session is already starting or active
(`this.sessionPromise` non-null) returns synchronously as a no-op: no
connection is attempted, no instruction built, and the manager state —
hence the existing session — is untouched. -/
theorem claim_C7_single_flight (s : ManagerState) (language documentContent : String)
    (h : startingOrActive s) :
    start s language documentContent = { st := s, instruction := none } := by
  have h' : s.sessionPromiseSet = true := h
  unfold start
  rw [if_pos h']

/-- Witness for C7 on a manager with a session in flight. -/
theorem claim_C7_witness :
    startingOrActive ⟨true, false, true, some 1, true, true, some CtxState.running, false⟩ ∧
    start ⟨true, false, true, some 1, true, true, some CtxState.running, false⟩ "en-US" "doc" =
      { st := ⟨true, false, true, some 1, true, true, some CtxState.running, false⟩,
        instruction := none } :=
  ⟨by decide,
   claim_C7_single_flight ⟨true, false, true, some 1, true, true, some CtxState.running, false⟩
     "en-US" "doc" (by decide)⟩

/-- Claim C8 counterexample: `stop()` wraps none of its release steps in a
guard, so when `session.close()` throws, the exception propagates and
every remaining release step is skipped — the media-stream tracks,
worklet node, source node and audio context all stay held. -/
theorem claim_C8_counterexample :
    stop ⟨true, true, true, some 2, true, true, some CtxState.running, false⟩ =
      { st := ⟨true, true, true, some 2, true, true, some CtxState.running, false⟩,
        acts := [], threw := true } ∧
    ¬ released (stop ⟨true, true, true, some 2, true, true,
        some CtxState.running, false⟩).st := by
  constructor
  · decide
  · decide

/-- Claim C8 (amended): the release steps of `stop()` run in source order
with no individual guards.  If `session.close()` throws, `stop()`
propagates the exception and performs no further release step (state
unchanged).  Otherwise every release step for a held resource is
performed — tracks stopped, worklet port closed and node disconnected,
source disconnected, a non-closed audio context closed — the call does
not throw, and all resources end released; the only absorbed failure is
the asynchronous audio-context close rejection (`.catch` in the source),
which is why `ctxCloseRejects` never affects the outcome. -/
theorem claim_C8_release_steps (s : ManagerState) :
    (s.sessionOpen = true ∧ s.sessionCloseThrows = true →
      stop s = { st := s, acts := [], threw := true }) ∧
    (¬(s.sessionOpen = true ∧ s.sessionCloseThrows = true) →
      (stop s).threw = false ∧ released (stop s).st ∧
      (s.sessionOpen = true → Action.closeSession ∈ (stop s).acts) ∧
      (∀ n, s.mediaStreamTracks = some n → ∀ i, i < n →
        Action.stopTrack i ∈ (stop s).acts) ∧
      (s.workletNode = true →
        Action.closePort ∈ (stop s).acts ∧ Action.disconnectNode ∈ (stop s).acts) ∧
      (s.streamSource = true → Action.disconnectSource ∈ (stop s).acts) ∧
      (∀ c, s.inputCtx = some c → c ≠ CtxState.closed →
        Action.closeCtx ∈ (stop s).acts)) := by
  constructor
  · rintro ⟨h1, h2⟩
    unfold stop
    rw [if_pos (by simp [h1, h2])]
  · intro hnot
    have hor : s.sessionOpen = false ∨ s.sessionCloseThrows = false := by
      cases ho : s.sessionOpen
      · exact Or.inl rfl
      · cases ht : s.sessionCloseThrows
        · exact Or.inr rfl
        · exact absurd ⟨ho, ht⟩ hnot
    have hcond : (s.sessionOpen && s.sessionCloseThrows) = false := by
      rcases hor with h | h <;> simp [h]
    obtain ⟨hth, hrel⟩ := stop_ok s hor
    refine ⟨hth, hrel, ?_, ?_, ?_, ?_, ?_⟩
    · intro ho
      unfold stop
      rw [if_neg (by simp [hcond])]
      simp [ho]
    · intro n hm i hi
      have hmm : Action.stopTrack i ∈ (List.range n).map Action.stopTrack :=
        List.mem_map.mpr ⟨i, List.mem_range.mpr hi, rfl⟩
      unfold stop
      rw [if_neg (by simp [hcond])]
      simp [hm, hmm]
    · intro hw
      unfold stop
      rw [if_neg (by simp [hcond])]
      simp [hw]
    · intro hsrc
      unfold stop
      rw [if_neg (by simp [hcond])]
      simp [hsrc]
    · intro c hctx hc
      have hdo : (match s.inputCtx with
          | some CtxState.closed => false
          | some _ => true
          | none => false) = true := by
        rw [hctx]
        rcases c with _ | _ | _
        · rfl
        · rfl
        · exact absurd rfl hc
      unfold stop
      rw [if_neg (by simp [hcond])]
      simp [hdo]

/-- Witness for the amended C8 on a fully-resourced, non-throwing
manager whose audio-context close rejects asynchronously. -/
theorem claim_C8_witness :
    (¬((⟨true, false, true, some 2, true, true, some CtxState.suspended, true⟩ :
        ManagerState).sessionOpen = true ∧
      (⟨true, false, true, some 2, true, true, some CtxState.suspended, true⟩ :
        ManagerState).sessionCloseThrows = true)) ∧
    ((stop ⟨true, false, true, some 2, true, true, some CtxState.suspended, true⟩).threw = false ∧
    released (stop ⟨true, false, true, some 2, true, true, some CtxState.suspended, true⟩).st ∧
    ((⟨true, false, true, some 2, true, true, some CtxState.suspended, true⟩ :
        ManagerState).sessionOpen = true →
      Action.closeSession ∈
        (stop ⟨true, false, true, some 2, true, true, some CtxState.suspended, true⟩).acts) ∧
    (∀ n, (⟨true, false, true, some 2, true, true, some CtxState.suspended, true⟩ :
        ManagerState).mediaStreamTracks = some n → ∀ i, i < n →
      Action.stopTrack i ∈
        (stop ⟨true, false, true, some 2, true, true, some CtxState.suspended, true⟩).acts) ∧
    ((⟨true, false, true, some 2, true, true, some CtxState.suspended, true⟩ :
        ManagerState).workletNode = true →
      Action.closePort ∈
          (stop ⟨true, false, true, some 2, true, true, some CtxState.suspended, true⟩).acts ∧
        Action.disconnectNode ∈
          (stop ⟨true, false, true, some 2, true, true, some CtxState.suspended, true⟩).acts) ∧
    ((⟨true, false, true, some 2, true, true, some CtxState.suspended, true⟩ :
        ManagerState).streamSource = true →
      Action.disconnectSource ∈
        (stop ⟨true, false, true, some 2, true, true, some CtxState.suspended, true⟩).acts) ∧
    (∀ c, (⟨true, false, true, some 2, true, true, some CtxState.suspended, true⟩ :
        ManagerState).inputCtx = some c → c ≠ CtxState.closed →
      Action.closeCtx ∈
        (stop ⟨true, false, true, some 2, true, true, some CtxState.suspended, true⟩).acts)) :=
  ⟨by decide,
   (claim_C8_release_steps
     ⟨true, false, true, some 2, true, true, some CtxState.suspended, true⟩).2 (by decide)⟩

/-- Claim C10 counterexample: the lookup `langMap[options.language]` on
the object literal consults the prototype chain, so at the unmapped code
"constructor" it finds the inherited, truthy
`Object.prototype.constructor` and `|| 'English'` never fires — the
language name embedded in the instruction is the stringified prototype
member, not "English". -/
theorem claim_C10_counterexample :
    "constructor" ∉ ["en-US", "pt-BR", "es-ES", "fr-FR", "de-DE"] ∧
    langNameOf "constructor" = LangName.protoMember "constructor" ∧
    langNameOf "constructor" ≠ LangName.str "English" := by
  decide

/-- Claim C10 (amended): a language code outside
{en-US, pt-BR, es-ES, fr-FR, de-DE} that is not the key of an
`Object.prototype` member (`constructor`, `toString`, `__proto__`, ...)
falls back to the human-readable name "English"; `start` still proceeds
(from idle it builds and uses the instruction rather than rejecting),
and the instruction built equals the English-language instruction — the
language name is always embedded.  (For prototype-member codes the
lookup returns the inherited truthy member and no fallback occurs; see
the counterexample.) -/
theorem claim_C10_language_fallback (language documentContent : String)
    (h : language ∉ ["en-US", "pt-BR", "es-ES", "fr-FR", "de-DE"])
    (hp : language ∉ objectProtoKeys) :
    langNameOf language = LangName.str "English" ∧
    (∀ s : ManagerState, s.sessionPromiseSet = false →
      (start s language documentContent).instruction =
        some (systemInstructionOf language documentContent)) ∧
    systemInstructionOf language documentContent =
      systemInstructionOf "en-US" documentContent := by
  have hne : language ≠ "en-US" ∧ language ≠ "pt-BR" ∧ language ≠ "es-ES" ∧
      language ≠ "fr-FR" ∧ language ≠ "de-DE" := by
    refine ⟨?_, ?_, ?_, ?_, ?_⟩ <;> intro he <;> exact h (by simp [he])
  have hown : langMapOwn language = none := by
    unfold langMapOwn
    rw [if_neg hne.1, if_neg hne.2.1, if_neg hne.2.2.1, if_neg hne.2.2.2.1,
      if_neg hne.2.2.2.2]
  have hname : langNameOf language = LangName.str "English" := by
    unfold langNameOf langLookup
    rw [hown]
    simp [hp]
  refine ⟨hname, ?_, ?_⟩
  · intro s hs
    unfold start
    rw [if_neg (by simp [hs])]
  · unfold systemInstructionOf
    rw [hname]
    rfl

/-- Witness for the amended C10 at the unsupported language code it-IT. -/
theorem claim_C10_witness :
    ("it-IT" ∉ ["en-US", "pt-BR", "es-ES", "fr-FR", "de-DE"]) ∧
    ("it-IT" ∉ objectProtoKeys) ∧
    (langNameOf "it-IT" = LangName.str "English" ∧
    (∀ s : ManagerState, s.sessionPromiseSet = false →
      (start s "it-IT" "doc").instruction = some (systemInstructionOf "it-IT" "doc")) ∧
    systemInstructionOf "it-IT" "doc" = systemInstructionOf "en-US" "doc") :=
  ⟨by decide, by decide, claim_C10_language_fallback "it-IT" "doc" (by decide) (by decide)⟩

end Talk2YourPDF
